import Mathlib

/-!
Verification of the registry aggregation and stub-generation engine of the
orca-telemetry CLI (source: `src/stub/main.go`).

Strings are modelled as `List Char` (Go iterates strings rune by rune; the
loop indices of the source are only ever compared with 0, which coincides
with "is the first rune").  Bytes are modelled as `Nat` values below 256;
`[]byte(s)` is the UTF-8 encoding of the string.  Machine integers carried
by the CRC-32 computation stay below 2^32 by construction (only xor and
right-shifts of 32-bit values occur), so no modulus is needed.
-/

set_option autoImplicit false
set_option maxRecDepth 100000

/-- Decidable equality on `Except`, needed to evaluate run results. -/
instance {e a : Type} [DecidableEq e] [DecidableEq a] : DecidableEq (Except e a) :=
  fun x y =>
    match x, y with
    | .error e1, .error e2 =>
      if h : e1 = e2 then .isTrue (by rw [h]) else .isFalse (by simp [h])
    | .ok v1, .ok v2 =>
      if h : v1 = v2 then .isTrue (by rw [h]) else .isFalse (by simp [h])
    | .error _, .ok _ => .isFalse (fun h => Except.noConfusion h)
    | .ok _, .error _ => .isFalse (fun h => Except.noConfusion h)

namespace orca

/-! ## Go whitespace, `strings.TrimSpace`, `strings.Fields`
`unicode.IsSpace` holds exactly for the Unicode White_Space code points. -/

/-- The Unicode White_Space code points recognised by Go's `unicode.IsSpace`. -/
def goIsSpace (c : Char) : Bool :=
  c ∈ ['\t', '\n', '\u000B', '\u000C', '\r', ' ', '\u0085', '\u00A0',
       '\u1680', '\u2000', '\u2001', '\u2002', '\u2003', '\u2004', '\u2005',
       '\u2006', '\u2007', '\u2008', '\u2009', '\u200A', '\u2028', '\u2029',
       '\u202F', '\u205F', '\u3000']

/-- Go `strings.TrimSpace`: drop leading and trailing white space. -/
def goTrimSpace (s : List Char) : List Char :=
  ((s.dropWhile goIsSpace).reverse.dropWhile goIsSpace).reverse

/-- Worker of `goFields`: `cur` is the (reversed) word being accumulated. -/
def fieldsAux : List Char → List Char → List (List Char)
  | [], cur => if cur.isEmpty then [] else [cur.reverse]
  | c :: rest, cur =>
    if goIsSpace c then
      if cur.isEmpty then fieldsAux rest [] else cur.reverse :: fieldsAux rest []
    else fieldsAux rest (c :: cur)

/-- Go `strings.Fields`: the maximal runs of non-white-space characters. -/
def goFields (s : List Char) : List (List Char) := fieldsAux s []

/-! ## UTF-8 and byte length (`len` on a Go string counts bytes) -/

/-- UTF-8 encoding of a single code point (1–4 bytes). -/
def utf8Char (c : Char) : List Nat :=
  let n := c.toNat
  if n < 0x80 then [n]
  else if n < 0x800 then
    [0xC0 ||| (n >>> 6), 0x80 ||| (n &&& 0x3F)]
  else if n < 0x10000 then
    [0xE0 ||| (n >>> 12), 0x80 ||| ((n >>> 6) &&& 0x3F), 0x80 ||| (n &&& 0x3F)]
  else
    [0xF0 ||| (n >>> 18), 0x80 ||| ((n >>> 12) &&& 0x3F),
     0x80 ||| ((n >>> 6) &&& 0x3F), 0x80 ||| (n &&& 0x3F)]

/-- The UTF-8 bytes of a string, i.e. Go's `[]byte(s)`. -/
def utf8 (s : List Char) : List Nat := (s.map utf8Char).flatten

/-- Go `len(s)` on a string: the number of UTF-8 bytes. -/
def byteLen (s : List Char) : Nat := (utf8 s).length

/-! ## `wrapText` (src/stub/main.go lines 57–81) -/

/-- The loop of `wrapText`.  `first` is `i == 0` of the Go loop and `L` the
`currentLineLength` variable; the builder output is produced left to right. -/
def wrapLoop (limit : Int) : List (List Char) → Bool → Int → List Char
  | [], _, _ => []
  | w :: rest, first, L =>
    let wl : Int := (byteLen w : Int)
    if L + wl > limit ∧ L > 0 then
      ('\n' :: w) ++ wrapLoop limit rest false (0 + wl)
    else if first = false then
      (' ' :: w) ++ wrapLoop limit rest false (L + 1 + wl)
    else
      w ++ wrapLoop limit rest false (L + wl)

/-- `wrapText` from the source: split into fields and re-join greedily. -/
def wrapText (limit : Int) (text : List Char) : List Char :=
  let words := goFields (goTrimSpace text)
  if words.isEmpty then [] else wrapLoop limit words true 0

/-! ## `toSnakeCase` (lines 89–102) -/

/-- ASCII upper-case test `'A' <= r && r <= 'Z'` of the source. -/
def isUpperGo (c : Char) : Bool := 'A' ≤ c ∧ c ≤ 'Z'

/-- The `r + 32` of the source (maps `'A'`–`'Z'` to `'a'`–`'z'`). -/
def goLower (c : Char) : Char := Char.ofNat (c.toNat + 32)

/-- The loop of `toSnakeCase`; `first` is `i == 0` of the Go loop. -/
def toSnakeLoop : List Char → Bool → List Char
  | [], _ => []
  | c :: rest, first =>
    (if first = false ∧ isUpperGo c then ['_'] else []) ++
      [if isUpperGo c then goLower c else c] ++ toSnakeLoop rest false

/-- `toSnakeCase` from the source. -/
def toSnakeCase (s : List Char) : List Char := toSnakeLoop s true

/-! ## `sanitiseVariableName` (lines 104–122)
`strconv.Atoi(string(r))` succeeds exactly for the ASCII digits `'0'`–`'9'`
when `r` is a single rune. -/

/-- Single-rune success condition of `strconv.Atoi` in the source. -/
def isDigitGo (c : Char) : Bool := '0' ≤ c ∧ c ≤ '9'

/-- The loop of `sanitiseVariableName`; `first` is `i == 0` of the Go loop.
On a leading digit the source prepends `'_'` and `continue`s. -/
def sanitiseLoop : List Char → Bool → List Char
  | [], _ => []
  | c :: rest, first =>
    if first ∧ isDigitGo c then '_' :: c :: sanitiseLoop rest false
    else if c = '.' then '_' :: sanitiseLoop rest false
    else c :: sanitiseLoop rest false

/-- `sanitiseVariableName` from the source. -/
def sanitiseVariableName (s : List Char) : List Char := sanitiseLoop s true

/-! ## CRC-32 (IEEE) as used via `crc32.NewIEEE()` / `Write` / `Sum32`
Go's `hash/crc32` builds the IEEE table with eight reflected bit rounds per
byte index and updates with `tab[byte(crc)^b] ^ (crc >> 8)`; the digest
starts from `^0` and the final sum is complemented again.  Sequential
`Write` calls therefore compute the CRC of the concatenated bytes. -/

/-- The reflected IEEE polynomial `0xEDB88320`. -/
def crcPoly : Nat := 0xEDB88320

/-- One reflected bit round of the table construction. -/
def crcBitRound (c : Nat) : Nat :=
  if c % 2 = 1 then (c >>> 1) ^^^ crcPoly else c >>> 1

/-- `simpleMakeTable` entry for a byte index: eight bit rounds. -/
def crcTable (i : Nat) : Nat := crcBitRound^[8] i

/-- `simpleUpdate` step for one byte. -/
def crc32Update (crc b : Nat) : Nat :=
  crcTable ((crc &&& 0xFF) ^^^ b) ^^^ (crc >>> 8)

/-- CRC-32 (IEEE) of a byte sequence. -/
def crc32 (bs : List Nat) : Nat :=
  (bs.foldl crc32Update 0xFFFFFFFF) ^^^ 0xFFFFFFFF

/-- Lower-case hexadecimal rendering of `fmt.Sprintf("%x", n)`:
no leading zeroes, `0` prints as `"0"`. -/
def hexStr (n : Nat) : List Char := Nat.toDigits 16 n

/-! ## The raw registry (the protobuf messages consumed by the generator)
Only the accessors used by `src/stub/main.go` are modelled.  The result-type
tag is an open enum: protobuf carries any integer, so values other than the
five declared ones are representable (`unrecognized`). -/

namespace pb

/-- A window metadata field of the raw registry (`GetName`, `GetDescription`). -/
structure MetadataField where
  name : String
  description : String
deriving DecidableEq, Repr, Inhabited

/-- A window type of the raw registry. -/
structure WindowType where
  name : String
  version : String
  description : String
  metadataFields : List MetadataField
deriving DecidableEq, Repr, Inhabited

/-- The `pb.ResultType` enum, with a constructor for values outside the five
declared ones (a protobuf enum field can carry any integer). -/
inductive ResultType where
  | NOT_SPECIFIED
  | ARRAY
  | STRUCT
  | VALUE
  | NONE
  | unrecognized (tag : Int)
deriving DecidableEq, Repr, Inhabited

/-- An algorithm of the raw registry. -/
structure Algorithm where
  name : String
  version : String
  description : String
  windowType : WindowType
  resultType : ResultType
deriving DecidableEq, Repr, Inhabited

/-- A processor of the raw registry (`GetName`, `GetRuntime`,
`GetConnectionStr`, `GetSupportedAlgorithms`). -/
structure Processor where
  name : String
  runtime : String
  connectionStr : String
  supportedAlgorithms : List Algorithm
deriving DecidableEq, Repr, Inhabited

/-- The raw registry returned by the core service (`GetProcessors`). -/
structure InternalState where
  processors : List Processor
deriving DecidableEq, Repr, Inhabited

end pb

/-! ## The generation model (the template data structures of the source) -/

namespace stub

/-- `type ReturnType string` and its four declared constants. -/
def structReturnType : String := "StructResult"

/-- `valueReturnType` constant of the source. -/
def valueReturnType : String := "ValueResult"

/-- `noneReturnType` constant of the source. -/
def noneReturnType : String := "NoneResult"

/-- `arrayReturnType` constant of the source. -/
def arrayReturnType : String := "ArrayResult"

/-- The `Metadata` template record. -/
structure Metadata where
  VarName : String
  KeyName : String
  Description : String
deriving DecidableEq, Repr, Inhabited

/-- The `Window` template record. -/
structure Window where
  VarName : String
  Name : String
  Version : String
  Description : String
  Metadata : List Metadata
deriving DecidableEq, Repr, Inhabited

/-- The `Algorithm` template record. -/
structure Algorithm where
  Name : String
  VarName : String
  Description : String
  ProcessorName : String
  ProcessorRuntime : String
  Version : String
  WindowVarName : String
  ReturnType : String
  Hash : String
deriving DecidableEq, Repr, Inhabited

/-- The `ProcessorData` template record. -/
structure ProcessorData where
  Name : String
  Metadata : List Metadata
  Windows : List Window
  Algorithms : List Algorithm
deriving DecidableEq, Repr, Inhabited

/-- The `AllProcessors` template root (the GenerationModel). -/
structure AllProcessors where
  Processors : List ProcessorData
  ImportTypes : List String
  AllMetadata : List Metadata
  AllWindows : List Window
deriving DecidableEq, Repr, Inhabited

/-! ## Association lists standing for the Go maps
A Go `map` read is keyed lookup; an insert-if-absent records the entry.  The
entry list below keeps insertion order as bookkeeping, but nothing about the
order of a Go map's `range` is guaranteed, so every function that iterates a
map is modelled as a relation closed under permutation of these entries. -/

/-- Keyed lookup, i.e. `m[k]` with its `ok` flag given by `Option`. -/
def lookupA {α : Type} (m : List (String × α)) (k : String) : Option α :=
  (m.find? (fun e => e.1 == k)).map (fun e => e.2)

/-- `if _, ok := m[k]; !ok { m[k] = v }` — the only write pattern used. -/
def assocInsert {α : Type} (m : List (String × α)) (k : String) (v : α) :
    List (String × α) :=
  if (lookupA m k).isSome then m else m ++ [(k, v)]

/-- Repeated `assocInsert` over a list of key/value pairs. -/
def assocFold {α : Type} (init : List (String × α)) :
    List (String × α) → List (String × α)
  | [] => init
  | e :: rest => assocFold (assocInsert init e.1 e.2) rest

/-- `m[k] = true` on the `map[string]bool` of used return types (only
membership is ever read from it). -/
def addKey (u : List String) (t : String) : List String :=
  if u.contains t then u else u ++ [t]

/-- Repeated `addKey`. -/
def addKeys (u : List String) (l : List String) : List String := l.foldl addKey u

/-! ## The aggregation pass (`mapInternalStateToTmpl`, lines 165–284) -/

/-- The mutable aggregation state of the source function. -/
structure AggAcc where
  usedReturnTypes : List String
  globalMetadataMap : List (String × Metadata)
  globalWindowsMap : List (String × Window)
deriving DecidableEq, Repr, Inhabited

/-- The error built at lines 218–225 for a `NOT_SPECIFIED` result type. -/
def errNotSpecified (a : pb.Algorithm) (p : pb.Processor) : String :=
  "result type not specified for algorithm " ++ a.name ++ "_" ++ a.version ++
    " on processor " ++ p.name ++ "_" ++ p.runtime

/-- The `switch algo.GetResultType()` of lines 208–226.  A tag outside the
five declared values matches no case, so `algoReturnType` keeps its zero
value `""`. -/
def resolveReturnType (p : pb.Processor) (a : pb.Algorithm) :
    Except String String :=
  match a.resultType with
  | .ARRAY => .ok arrayReturnType
  | .STRUCT => .ok structReturnType
  | .VALUE => .ok valueReturnType
  | .NONE => .ok noneReturnType
  | .NOT_SPECIFIED => .error (errNotSpecified a p)
  | .unrecognized _ => .ok ""

/-- The metadata loop of lines 180–196: register each field in the global
map when absent, and build `metadataForWindow`. -/
def registerMetadata (gm : List (String × Metadata)) :
    List pb.MetadataField → List (String × Metadata) × List Metadata
  | [] => (gm, [])
  | md :: rest =>
    let entry : Metadata :=
      { VarName := md.name, KeyName := md.name, Description := md.description }
    let gm1 := assocInsert gm md.name entry
    let res := registerMetadata gm1 rest
    (res.1, entry :: res.2)

/-- The window key `fmt.Sprintf("%v_%v", windowName, windowVer)`. -/
def windowKeyOf (a : pb.Algorithm) : String :=
  a.windowType.name ++ "_" ++ a.windowType.version

/-- The CRC-32 fingerprint of lines 229–236: six fields written to the
digest in order, with no delimiter. -/
def algoHash (p : pb.Processor) (a : pb.Algorithm) : Nat :=
  crc32 (utf8 p.name.data ++ utf8 p.connectionStr.data ++
    utf8 a.windowType.name.data ++ utf8 a.windowType.version.data ++
    utf8 a.name.data ++ utf8 a.version.data)

/-- The `Algorithm` record built at lines 238–248; `%v_%x` renders the raw
name, an underscore and the lower-case hexadecimal hash. -/
def algoRecord (p : pb.Processor) (a : pb.Algorithm) (rt : String) : Algorithm :=
  { Name := a.name
    VarName := a.name ++ "_" ++ (hexStr (algoHash p a)).asString
    Description := a.description
    ProcessorName := p.name
    ProcessorRuntime := p.runtime
    Version := a.version
    WindowVarName := windowKeyOf a
    ReturnType := rt
    Hash := (hexStr (algoHash p a)).asString }

/-- The body of the inner algorithm loop (lines 175–249). -/
def processAlgorithm (p : pb.Processor) (acc : AggAcc) (a : pb.Algorithm) :
    Except String (AggAcc × Algorithm) :=
  let windowName := a.windowType.name
  let windowVer := a.windowType.version
  let windowKey := windowName ++ "_" ++ windowVer
  let res := registerMetadata acc.globalMetadataMap a.windowType.metadataFields
  let gw := assocInsert acc.globalWindowsMap windowKey
    { VarName := windowKey, Name := windowName, Version := windowVer,
      Description := a.windowType.description, Metadata := res.2 }
  match resolveReturnType p a with
  | .error e => .error e
  | .ok rt =>
    .ok ({ usedReturnTypes := addKey acc.usedReturnTypes rt,
           globalMetadataMap := res.1, globalWindowsMap := gw },
         algoRecord p a rt)

/-- The inner loop over `proc.GetSupportedAlgorithms()`. -/
def processAlgorithms (p : pb.Processor) (acc : AggAcc) :
    List pb.Algorithm → Except String (AggAcc × List Algorithm)
  | [] => .ok (acc, [])
  | a :: rest =>
    match processAlgorithm p acc a with
    | .error e => .error e
    | .ok r1 =>
      match processAlgorithms p r1.1 rest with
      | .error e => .error e
      | .ok r2 => .ok (r2.1, r1.2 :: r2.2)

/-- The outer loop over `internalState.GetProcessors()`; Go zero-initialises
the `Metadata` and `Windows` fields of `ProcessorData` (they are never set). -/
def processProcessors (acc : AggAcc) :
    List pb.Processor → Except String (AggAcc × List ProcessorData)
  | [] => .ok (acc, [])
  | p :: rest =>
    match processAlgorithms p acc p.supportedAlgorithms with
    | .error e => .error e
    | .ok r1 =>
      match processProcessors r1.1 rest with
      | .error e => .error e
      | .ok r2 =>
        .ok (r2.1,
          { Name := p.name, Metadata := [], Windows := [],
            Algorithms := r1.2 } :: r2.2)

/-- The order-independent part of the aggregation result: everything
`mapInternalStateToTmpl` computes before the two map-to-slice conversions,
with the map entries kept in insertion order as bookkeeping. -/
structure Core where
  processorDatas : List ProcessorData
  usedReturnTypes : List String
  metaEntries : List Metadata
  winEntries : List Window
deriving DecidableEq, Repr, Inhabited

/-- The deterministic single pass of `mapInternalStateToTmpl`. -/
def aggregate (s : pb.InternalState) : Except String Core :=
  match processProcessors
      { usedReturnTypes := [], globalMetadataMap := [], globalWindowsMap := [] }
      s.processors with
  | .error e => .error e
  | .ok r =>
    .ok { processorDatas := r.2,
          usedReturnTypes := r.1.usedReturnTypes,
          metaEntries := r.1.globalMetadataMap.map (fun e => e.2),
          winEntries := r.1.globalWindowsMap.map (fun e => e.2) }

/-- `availableTypes` literal of line 271. -/
def availableTypes : List String :=
  ["StructResult", "ValueResult", "NoneResult", "ArrayResult"]

/-- The import-list finalisation of lines 269–276. -/
def importListOf (used : List String) : List String :=
  availableTypes.filter (fun t => used.contains t)

/-- `mapInternalStateToTmpl` as a relation between the input registry and a
possible result of one run.  The `AllMetadata` and `AllWindows` slices are
filled by `for _, v := range m` over Go maps, whose iteration order is
unspecified, so a run may present the entries in any order. -/
def mapInternalStateToTmpl (s : pb.InternalState)
    (r : Except String AllProcessors) : Prop :=
  (∃ e, aggregate s = .error e ∧ r = .error e) ∨
  (∃ core am aw, aggregate s = .ok core ∧
    am.Perm core.metaEntries ∧ aw.Perm core.winEntries ∧
    r = .ok { Processors := core.processorDatas,
              ImportTypes := importListOf core.usedReturnTypes,
              AllMetadata := am, AllWindows := aw })

/-- `GeneratePythonStubs` (lines 286–335): on an aggregation error it
returns the wrapped error before touching the filesystem; on success the
filesystem work is abstracted to the fixed list of files it creates under
`orca_python/registry/` (directory creation and template execution carry no
data-shape content). -/
def GeneratePythonStubs (s : pb.InternalState) : Except String (List String) :=
  match aggregate s with
  | .error e => .error ("could not parse internal state: " ++ e)
  | .ok _ => .ok ["__init__.pyi", "algorithms.pyi", "window_types.pyi",
                  "metadata_fields.pyi"]

/-- The files a run materialises: none when generation fails. -/
def generatedFiles (s : pb.InternalState) : List String :=
  match GeneratePythonStubs s with
  | .error _ => []
  | .ok fs => fs

/-- The success value of an aggregation run (`default` when it fails). -/
def coreOf (s : pb.InternalState) : Core := (aggregate s).toOption.getD default

/-- The model assembled from `coreOf` with both slices in insertion order —
one admissible iteration order of the two Go maps. -/
def outCanonOf (s : pb.InternalState) : AllProcessors :=
  { Processors := (coreOf s).processorDatas,
    ImportTypes := importListOf (coreOf s).usedReturnTypes,
    AllMetadata := (coreOf s).metaEntries,
    AllWindows := (coreOf s).winEntries }

/-- The same model with the global metadata slice in the reversed iteration
order — another admissible iteration order of the Go map. -/
def outSwapOf (s : pb.InternalState) : AllProcessors :=
  { outCanonOf s with AllMetadata := (coreOf s).metaEntries.reverse }

end stub

/-! ## Concrete registries used by witnesses and counterexamples -/

/-- A registry with a duplicated window key (differing descriptions), a
duplicated metadata name (differing descriptions), a dotted algorithm name,
a repeated display name across processors, and only VALUE/ARRAY kinds.
Constructor argument order: `Processor` is name, runtime, connectionStr,
supportedAlgorithms; `Algorithm` is name, version, description, windowType,
resultType; `WindowType` is name, version, description, metadataFields. -/
def sEx : pb.InternalState :=
  ⟨[⟨"procA", "python", "localhost:1",
     [⟨"SpeedCheck", "1.0.0", "d1",
       ⟨"win", "1", "first desc", [⟨"m1", "mdesc1"⟩, ⟨"m2", "mdesc2"⟩]⟩, .VALUE⟩,
      ⟨"name.with.dots", "2", "d2",
       ⟨"win", "1", "second desc", [⟨"m1", "OTHER"⟩]⟩, .ARRAY⟩]⟩,
    ⟨"procB", "go", "localhost:2",
     [⟨"SpeedCheck", "1.0.0", "d3",
       ⟨"win", "1", "third desc", [⟨"m3", "mdesc3"⟩]⟩, .VALUE⟩]⟩]⟩

/-- A registry whose second algorithm carries the `NOT_SPECIFIED` sentinel. -/
def sBad : pb.InternalState :=
  ⟨[⟨"ml-test", "python", "c",
     [⟨"Ok", "1", "", ⟨"w", "1", "", []⟩, .VALUE⟩,
      ⟨"Foo", "1.0.0", "", ⟨"w", "1", "", []⟩, .NOT_SPECIFIED⟩]⟩]⟩

/-- A registry with an algorithm whose result-type tag is outside the five
declared enum values, and no `NOT_SPECIFIED` entry. -/
def sU : pb.InternalState :=
  ⟨[⟨"P", "python", "c",
     [⟨"U", "1", "", ⟨"w", "1", "", []⟩, .unrecognized 99⟩,
      ⟨"V", "1", "", ⟨"w", "1", "", []⟩, .VALUE⟩]⟩]⟩

/-- A registry holding both an out-of-range tag and a `NOT_SPECIFIED` tag. -/
def sUBad : pb.InternalState :=
  ⟨[⟨"P", "python", "c",
     [⟨"U", "1", "", ⟨"w", "1", "", []⟩, .unrecognized 99⟩,
      ⟨"V", "1", "", ⟨"w", "1", "", []⟩, .NOT_SPECIFIED⟩]⟩]⟩

namespace stub

/-! ## Derived descriptions of what one traversal step contributes
(used to state and prove properties of the pass) -/

/-- The template `Metadata` record built from a raw metadata field
(lines 185–195 build this same record twice). -/
def metadataEntryOf (md : pb.MetadataField) : Metadata :=
  { VarName := md.name, KeyName := md.name, Description := md.description }

/-- The template `Window` record one algorithm occurrence would register
(lines 199–205). -/
def windowEntryOf (a : pb.Algorithm) : Window :=
  { VarName := windowKeyOf a, Name := a.windowType.name,
    Version := a.windowType.version, Description := a.windowType.description,
    Metadata := a.windowType.metadataFields.map metadataEntryOf }

/-- The return-kind name an algorithm contributes to the used set: `""` for
a tag outside the five declared values (no switch case matches), and for
the sentinel — though the sentinel aborts the run before it is recorded. -/
def returnNameTotal (a : pb.Algorithm) : String :=
  match a.resultType with
  | .ARRAY => arrayReturnType
  | .STRUCT => structReturnType
  | .VALUE => valueReturnType
  | .NONE => noneReturnType
  | .NOT_SPECIFIED => ""
  | .unrecognized _ => ""

/-- The `ProcessorData` a successful pass produces for one processor. -/
def procDataOf (p : pb.Processor) : ProcessorData :=
  { Name := p.name, Metadata := [], Windows := [],
    Algorithms := p.supportedAlgorithms.map
      (fun a => algoRecord p a (returnNameTotal a)) }

/-- The global-metadata insertions one algorithm performs, in order. -/
def algoMetaOcc (a : pb.Algorithm) : List (String × Metadata) :=
  a.windowType.metadataFields.map (fun md => (md.name, metadataEntryOf md))

/-- The global-window insertion one algorithm performs. -/
def algoWinOcc (a : pb.Algorithm) : String × Window :=
  (windowKeyOf a, windowEntryOf a)

/-- All global-metadata insertions of a registry, in traversal order. -/
def metadataOccurrences (s : pb.InternalState) : List (String × Metadata) :=
  s.processors.flatMap (fun p => p.supportedAlgorithms.flatMap algoMetaOcc)

/-- All global-window insertions of a registry, in traversal order. -/
def windowOccurrences (s : pb.InternalState) : List (String × Window) :=
  s.processors.flatMap (fun p => p.supportedAlgorithms.map algoWinOcc)

/-- The used return-kind names of a registry, in traversal order. -/
def returnNames (s : pb.InternalState) : List String :=
  s.processors.flatMap (fun p => p.supportedAlgorithms.map returnNameTotal)

/-- The six fingerprint fields of one algorithm, in digest order. -/
def sixTuple (p : pb.Processor) (a : pb.Algorithm) : List String :=
  [p.name, p.connectionStr, a.windowType.name, a.windowType.version,
   a.name, a.version]

/-- The sixteen characters `%x` can emit. -/
def hexAlphabet : List Char := "0123456789abcdef".data

/-- The record generated for the dotted-name algorithm of `sEx`. -/
def algoDotted : Algorithm :=
  ((coreOf sEx).processorDatas.headD default).Algorithms.getD 1 default

end stub

/-! ## Claim-shaped specifications (stated from the specification text, to
be compared against the functions translated from the source) -/

/-- C6's wording of `toSnakeCase`: an underscore before every upper-case
letter that is not the first character, every upper-case letter lowered. -/
def snakeSpec : List Char → List Char
  | [] => []
  | c :: rest =>
    (if isUpperGo c then [goLower c] else [c]) ++
      rest.flatMap (fun d => if isUpperGo d then ['_', goLower d] else [d])

/-- Dot replacement of C7's wording. -/
def dotToUnderscore (c : Char) : Char := if c = '.' then '_' else c

/-- C7's wording of `sanitiseVariableName`: a leading underscore exactly
when the first character is a decimal digit, every `'.'` replaced by `'_'`,
everything else unchanged. -/
def sanitiseSpec (s : List Char) : List Char :=
  (match s with
   | [] => ([] : List Char)
   | c :: _ => if isDigitGo c then ['_'] else []) ++ s.map dotToUnderscore

namespace stub

/-! ## Lemmas about the association-list model of the Go maps -/

theorem lookupA_nil {α : Type} (k : String) :
    lookupA ([] : List (String × α)) k = none := rfl

theorem lookupA_cons {α : Type} (e : String × α) (m : List (String × α))
    (k : String) :
    lookupA (e :: m) k = if e.1 = k then some e.2 else lookupA m k := by
  simp only [lookupA, List.find?_cons]
  by_cases h : e.1 = k
  · simp [h]
  · have hb : (e.1 == k) = false := by simp [h]
    simp [hb, h]

theorem lookupA_append {α : Type} (m m' : List (String × α)) (k : String) :
    lookupA (m ++ m') k =
      match lookupA m k with
      | some v => some v
      | none => lookupA m' k := by
  simp only [lookupA, List.find?_append]
  cases h : List.find? (fun e => e.1 == k) m <;> simp [Option.or]

theorem lookupA_single {α : Type} (k1 k : String) (v1 : α) :
    lookupA [(k1, v1)] k = if k1 = k then some v1 else none := by
  rw [show [(k1, v1)] = (k1, v1) :: ([] : List (String × α)) from rfl, lookupA_cons]
  by_cases h : k1 = k <;> simp [h, lookupA_nil]

theorem lookupA_mem {α : Type} {m : List (String × α)} {k : String} {v : α}
    (h : lookupA m k = some v) : (k, v) ∈ m := by
  simp only [lookupA, Option.map_eq_some'] at h
  obtain ⟨e, he, hv⟩ := h
  have hk := List.find?_some he
  have hm := List.mem_of_find?_eq_some he
  have : e = (k, v) := by
    cases e
    simp only [beq_iff_eq] at hk
    simp_all
  simpa [this] using hm

theorem lookupA_eq_none {α : Type} {m : List (String × α)} {k : String} :
    lookupA m k = none ↔ ∀ e ∈ m, e.1 ≠ k := by
  induction m with
  | nil => simp [lookupA]
  | cons e m ih =>
    rw [lookupA_cons]
    by_cases h : e.1 = k <;> simp [h, ih]

theorem mem_assocInsert {α : Type} {m : List (String × α)} {k : String}
    {v : α} {e : String × α} (h : e ∈ assocInsert m k v) :
    e ∈ m ∨ e = (k, v) := by
  unfold assocInsert at h
  split at h
  · exact Or.inl h
  · simpa using h

theorem mem_assocFold {α : Type} {l : List (String × α)} :
    ∀ {init : List (String × α)} {e : String × α},
      e ∈ assocFold init l → e ∈ init ∨ e ∈ l := by
  induction l with
  | nil => intro init e h; exact Or.inl h
  | cons x rest ih =>
    intro init e h
    rcases ih h with h1 | h1
    · rcases mem_assocInsert h1 with h2 | h2
      · exact Or.inl h2
      · exact Or.inr (by simp [h2])
    · exact Or.inr (List.mem_cons_of_mem _ h1)

theorem lookupA_assocInsert {α : Type} (m : List (String × α)) (k1 k : String)
    (v1 : α) :
    lookupA (assocInsert m k1 v1) k =
      match lookupA m k with
      | some v => some v
      | none => if k1 = k then some v1 else none := by
  by_cases hs : (lookupA m k1).isSome
  · rw [assocInsert, if_pos hs]
    cases h : lookupA m k
    · by_cases hkk : k1 = k
      · exfalso
        rw [hkk, h] at hs
        simp at hs
      · simp [hkk]
    · rfl
  · rw [assocInsert, if_neg hs, lookupA_append, lookupA_single]

theorem lookupA_assocFold {α : Type} (l : List (String × α)) :
    ∀ (init : List (String × α)) (k : String),
      lookupA (assocFold init l) k =
        match lookupA init k with
        | some v => some v
        | none => lookupA l k := by
  induction l with
  | nil =>
    intro init k
    cases h : lookupA init k <;> simp [assocFold, h, lookupA_nil]
  | cons x rest ih =>
    intro init k
    rw [show assocFold init (x :: rest) = assocFold (assocInsert init x.1 x.2) rest
        from rfl, ih, lookupA_assocInsert, lookupA_cons]
    cases h : lookupA init k
    · by_cases hkk : x.1 = k <;> simp [hkk, h]
    · simp [h]

theorem keys_nodup_assocFold {α : Type} (l : List (String × α)) :
    ∀ {init : List (String × α)},
      (init.map Prod.fst).Nodup → ((assocFold init l).map Prod.fst).Nodup := by
  induction l with
  | nil => intro init h; exact h
  | cons x rest ih =>
    intro init h
    refine ih ?_
    unfold assocInsert
    split
    · exact h
    · rename_i hs
      rw [Option.not_isSome_iff_eq_none] at hs
      rw [lookupA_eq_none] at hs
      simp only [List.map_append, List.map_cons, List.map_nil]
      rw [List.nodup_append]
      refine ⟨h, List.nodup_singleton _, ?_⟩
      intro y hy hy1
      simp only [List.mem_singleton] at hy1
      obtain ⟨e, he, hey⟩ := List.mem_map.mp hy
      exact hs e he (by rw [hey, hy1])

theorem assoc_value_unique {α : Type} {m : List (String × α)}
    (h : (m.map Prod.fst).Nodup) {k : String} {v1 v2 : α}
    (h1 : (k, v1) ∈ m) (h2 : (k, v2) ∈ m) : v1 = v2 := by
  induction m with
  | nil => cases h1
  | cons e m ih =>
    simp only [List.map_cons, List.nodup_cons] at h
    rcases List.mem_cons.mp h1 with g1 | g1 <;>
      rcases List.mem_cons.mp h2 with g2 | g2
    · exact congrArg Prod.snd (g1.trans g2.symm)
    · exact absurd (List.mem_map.mpr ⟨(k, v2), g2, by rw [← g1]⟩) h.1
    · exact absurd (List.mem_map.mpr ⟨(k, v1), g1, by rw [← g2]⟩) h.1
    · exact ih h.2 g1 g2

theorem countP_key_of_nodup {α : Type} {m : List (String × α)}
    (h : (m.map Prod.fst).Nodup) {k : String} {v : α} (hm : (k, v) ∈ m) :
    m.countP (fun e => e.1 == k) = 1 := by
  have hk : k ∈ m.map Prod.fst := List.mem_map.mpr ⟨(k, v), hm, rfl⟩
  have hc := List.count_eq_one_of_mem h hk
  rw [List.count, List.countP_map] at hc
  rw [← hc]
  exact List.countP_congr (fun e _ => by simp [Function.comp])

theorem assocFold_append {α : Type} (l1 l2 : List (String × α)) :
    ∀ init : List (String × α),
      assocFold init (l1 ++ l2) = assocFold (assocFold init l1) l2 := by
  induction l1 with
  | nil => intro init; rfl
  | cons x rest ih =>
    intro init
    simp only [List.cons_append, assocFold]
    exact ih _

/-! ## The used-return-kinds set -/

theorem mem_addKey {u : List String} {t x : String} :
    x ∈ addKey u t ↔ x ∈ u ∨ x = t := by
  unfold addKey
  split
  · rename_i hc
    have ht : t ∈ u := by simpa [List.elem_iff] using hc
    constructor
    · exact Or.inl
    · rintro (h | rfl)
      · exact h
      · exact ht
  · simp [List.mem_append]

theorem mem_addKeys (l : List String) :
    ∀ (u : List String) (x : String), x ∈ addKeys u l ↔ x ∈ u ∨ x ∈ l := by
  induction l with
  | nil => intro u x; simp [addKeys]
  | cons t rest ih =>
    intro u x
    rw [show addKeys u (t :: rest) = addKeys (addKey u t) rest from rfl, ih,
      mem_addKey]
    simp [List.mem_cons, or_assoc]

theorem addKeys_append (u : List String) (l1 l2 : List String) :
    addKeys u (l1 ++ l2) = addKeys (addKeys u l1) l2 :=
  List.foldl_append _ _ _ _

/-! ## What one traversal step does to the aggregation state -/

theorem registerMetadata_spec (mds : List pb.MetadataField) :
    ∀ gm : List (String × Metadata),
      registerMetadata gm mds =
        (assocFold gm (mds.map (fun md => (md.name, metadataEntryOf md))),
         mds.map metadataEntryOf) := by
  induction mds with
  | nil => intro gm; rfl
  | cons md rest ih =>
    intro gm
    simp only [registerMetadata, ih, List.map_cons, assocFold, metadataEntryOf]

theorem processAlgorithm_not_specified (p : pb.Processor) (acc : AggAcc)
    {a : pb.Algorithm} (h : a.resultType = .NOT_SPECIFIED) :
    processAlgorithm p acc a = .error (errNotSpecified a p) := by
  simp [processAlgorithm, resolveReturnType, h]

theorem processAlgorithm_ok (p : pb.Processor) (acc : AggAcc)
    {a : pb.Algorithm} (h : a.resultType ≠ .NOT_SPECIFIED) :
    processAlgorithm p acc a =
      .ok ({ usedReturnTypes := addKey acc.usedReturnTypes (returnNameTotal a),
             globalMetadataMap :=
               assocFold acc.globalMetadataMap (algoMetaOcc a),
             globalWindowsMap :=
               assocInsert acc.globalWindowsMap (windowKeyOf a)
                 (windowEntryOf a) },
           algoRecord p a (returnNameTotal a)) := by
  cases hr : a.resultType <;>
    simp_all [processAlgorithm, resolveReturnType, registerMetadata_spec,
      returnNameTotal, windowKeyOf, windowEntryOf, algoMetaOcc]

/-- The accumulator after one successful algorithm step. -/
def stepAcc (acc : AggAcc) (a : pb.Algorithm) : AggAcc :=
  { usedReturnTypes := addKey acc.usedReturnTypes (returnNameTotal a),
    globalMetadataMap := assocFold acc.globalMetadataMap (algoMetaOcc a),
    globalWindowsMap :=
      assocInsert acc.globalWindowsMap (windowKeyOf a) (windowEntryOf a) }

theorem processAlgorithms_cons (p : pb.Processor) (acc : AggAcc)
    (a : pb.Algorithm) (rest : List pb.Algorithm) :
    processAlgorithms p acc (a :: rest) =
      match processAlgorithm p acc a with
      | .error e => .error e
      | .ok r1 =>
        match processAlgorithms p r1.1 rest with
        | .error e => .error e
        | .ok r2 => .ok (r2.1, r1.2 :: r2.2) := rfl

theorem processAlgorithms_cons_ok (p : pb.Processor) (acc : AggAcc)
    {a : pb.Algorithm} (h : a.resultType ≠ .NOT_SPECIFIED)
    (rest : List pb.Algorithm) :
    processAlgorithms p acc (a :: rest) =
      match processAlgorithms p (stepAcc acc a) rest with
      | .error e => .error e
      | .ok r2 => .ok (r2.1, algoRecord p a (returnNameTotal a) :: r2.2) := by
  rw [processAlgorithms_cons, processAlgorithm_ok p acc h]
  rfl

theorem processAlgorithms_ok (p : pb.Processor) (l : List pb.Algorithm) :
    ∀ (acc acc2 : AggAcc) (recs : List Algorithm),
      processAlgorithms p acc l = .ok (acc2, recs) →
      recs = l.map (fun a => algoRecord p a (returnNameTotal a)) ∧
      acc2.usedReturnTypes =
        addKeys acc.usedReturnTypes (l.map returnNameTotal) ∧
      acc2.globalMetadataMap =
        assocFold acc.globalMetadataMap (l.flatMap algoMetaOcc) ∧
      acc2.globalWindowsMap =
        assocFold acc.globalWindowsMap (l.map algoWinOcc) := by
  induction l with
  | nil =>
    intro acc acc2 recs h
    cases h
    simp [addKeys, assocFold]
  | cons a rest ih =>
    intro acc acc2 recs h
    by_cases hns : a.resultType = .NOT_SPECIFIED
    · rw [processAlgorithms_cons, processAlgorithm_not_specified p acc hns] at h
      cases h
    · rw [processAlgorithms_cons_ok p acc hns] at h
      cases h2 : processAlgorithms p (stepAcc acc a) rest with
      | error e => rw [h2] at h; cases h
      | ok r2 =>
        rw [h2] at h
        cases h
        obtain ⟨hb1, hb2, hb3, hb4⟩ := ih _ _ _ h2
        refine ⟨by simp [hb1], ?_, ?_, ?_⟩
        · rw [hb2]
          rfl
        · rw [hb3, List.flatMap_cons, assocFold_append]
          rfl
        · rw [hb4]
          rfl

theorem processAlgorithms_ok_exists (p : pb.Processor) (l : List pb.Algorithm)
    (h : ∀ a ∈ l, a.resultType ≠ .NOT_SPECIFIED) :
    ∀ acc, ∃ r, processAlgorithms p acc l = .ok r := by
  induction l with
  | nil => intro acc; exact ⟨(acc, []), rfl⟩
  | cons a rest ih =>
    intro acc
    rw [processAlgorithms_cons_ok p acc (h a (List.mem_cons_self a rest))]
    obtain ⟨r, hr⟩ := ih (fun x hx => h x (List.mem_cons_of_mem _ hx)) (stepAcc acc a)
    rw [hr]
    exact ⟨_, rfl⟩

theorem processAlgorithms_error_first (p : pb.Processor)
    (l : List pb.Algorithm) :
    ∀ (acc : AggAcc) (a0 : pb.Algorithm),
      l.find? (fun a => decide (a.resultType = .NOT_SPECIFIED)) = some a0 →
      processAlgorithms p acc l = .error (errNotSpecified a0 p) := by
  induction l with
  | nil => intro acc a0 h; cases h
  | cons a rest ih =>
    intro acc a0 h
    by_cases hns : a.resultType = .NOT_SPECIFIED
    · rw [List.find?_cons_of_pos _ (by simpa using hns)] at h
      cases h
      rw [processAlgorithms_cons, processAlgorithm_not_specified p acc hns]
    · rw [List.find?_cons_of_neg _ (by simpa using hns)] at h
      rw [processAlgorithms_cons_ok p acc hns, ih _ _ h]

theorem processProcessors_cons (acc : AggAcc) (p : pb.Processor)
    (rest : List pb.Processor) :
    processProcessors acc (p :: rest) =
      match processAlgorithms p acc p.supportedAlgorithms with
      | .error e => .error e
      | .ok r1 =>
        match processProcessors r1.1 rest with
        | .error e => .error e
        | .ok r2 =>
          .ok (r2.1,
            { Name := p.name, Metadata := [], Windows := [],
              Algorithms := r1.2 } :: r2.2) := rfl

theorem processProcessors_ok (ps : List pb.Processor) :
    ∀ (acc acc2 : AggAcc) (pds : List ProcessorData),
      processProcessors acc ps = .ok (acc2, pds) →
      pds = ps.map procDataOf ∧
      acc2.usedReturnTypes = addKeys acc.usedReturnTypes
        (ps.flatMap (fun p => p.supportedAlgorithms.map returnNameTotal)) ∧
      acc2.globalMetadataMap = assocFold acc.globalMetadataMap
        (ps.flatMap (fun p => p.supportedAlgorithms.flatMap algoMetaOcc)) ∧
      acc2.globalWindowsMap = assocFold acc.globalWindowsMap
        (ps.flatMap (fun p => p.supportedAlgorithms.map algoWinOcc)) := by
  induction ps with
  | nil =>
    intro acc acc2 pds h
    cases h
    simp [addKeys, assocFold]
  | cons p rest ih =>
    intro acc acc2 pds h
    rw [processProcessors_cons] at h
    cases h1 : processAlgorithms p acc p.supportedAlgorithms with
    | error e => rw [h1] at h; cases h
    | ok r1 =>
      rw [h1] at h
      replace h : (match processProcessors r1.1 rest with
        | Except.error e => Except.error e
        | Except.ok r2 =>
          Except.ok (r2.1,
            { Name := p.name, Metadata := [], Windows := [],
              Algorithms := r1.2 } :: r2.2)) = Except.ok (acc2, pds) := h
      cases h2 : processProcessors r1.1 rest with
      | error e => rw [h2] at h; cases h
      | ok r2 =>
        rw [h2] at h
        cases h
        obtain ⟨ha1, ha2, ha3, ha4⟩ := processAlgorithms_ok p _ _ _ _ h1
        obtain ⟨hb1, hb2, hb3, hb4⟩ := ih _ _ _ h2
        refine ⟨?_, ?_, ?_, ?_⟩
        · rw [List.map_cons, hb1, ha1]
          rfl
        · rw [List.flatMap_cons, addKeys_append, hb2, ha2]
        · rw [List.flatMap_cons, assocFold_append, hb3, ha3]
        · rw [List.flatMap_cons, assocFold_append, hb4, ha4]

theorem processProcessors_ok_exists (ps : List pb.Processor)
    (h : ∀ p ∈ ps, ∀ a ∈ p.supportedAlgorithms,
      a.resultType ≠ .NOT_SPECIFIED) :
    ∀ acc, ∃ r, processProcessors acc ps = .ok r := by
  induction ps with
  | nil => intro acc; exact ⟨(acc, []), rfl⟩
  | cons p rest ih =>
    intro acc
    obtain ⟨r1, hr1⟩ := processAlgorithms_ok_exists p p.supportedAlgorithms
      (h p (List.mem_cons_self p rest)) acc
    obtain ⟨r2, hr2⟩ := ih (fun q hq => h q (List.mem_cons_of_mem _ hq)) r1.1
    refine ⟨(r2.1,
      { Name := p.name, Metadata := [], Windows := [],
        Algorithms := r1.2 } :: r2.2), ?_⟩
    rw [processProcessors_cons, hr1]
    show (match processProcessors r1.1 rest with
      | Except.error e => Except.error e
      | Except.ok r2 => Except.ok (r2.1, { Name := p.name, Metadata := [], Windows := [], Algorithms := r1.2 } :: r2.2)) =
      Except.ok (r2.1, { Name := p.name, Metadata := [], Windows := [], Algorithms := r1.2 } :: r2.2)
    rw [hr2]

theorem processProcessors_error_first (ps : List pb.Processor) :
    ∀ (acc : AggAcc) (p0 : pb.Processor) (a0 : pb.Algorithm),
      ps.find? (fun p => (p.supportedAlgorithms.find?
        (fun a => decide (a.resultType = .NOT_SPECIFIED))).isSome) = some p0 →
      p0.supportedAlgorithms.find?
        (fun a => decide (a.resultType = .NOT_SPECIFIED)) = some a0 →
      processProcessors acc ps = .error (errNotSpecified a0 p0) := by
  induction ps with
  | nil => intro _ _ _ h _; cases h
  | cons p rest ih =>
    intro acc p0 a0 h h0
    by_cases hp : (p.supportedAlgorithms.find?
        (fun a => decide (a.resultType = .NOT_SPECIFIED))).isSome
    · rw [List.find?_cons_of_pos _ (by simpa using hp)] at h
      cases h
      rw [processProcessors_cons,
        processAlgorithms_error_first p p.supportedAlgorithms acc a0 h0]
    · rw [List.find?_cons_of_neg _ (by simpa using hp)] at h
      have hclean : ∀ a ∈ p.supportedAlgorithms,
          a.resultType ≠ .NOT_SPECIFIED := by
        intro a ha hns
        exact hp (List.find?_isSome.mpr ⟨a, ha, by simpa using hns⟩)
      obtain ⟨r1, hr1⟩ :=
        processAlgorithms_ok_exists p p.supportedAlgorithms hclean acc
      rw [processProcessors_cons, hr1]
      show (match processProcessors r1.1 rest with
        | Except.error e => Except.error e
        | Except.ok r2 => Except.ok (r2.1, { Name := p.name, Metadata := [], Windows := [], Algorithms := r1.2 } :: r2.2)) =
        Except.error (errNotSpecified a0 p0)
      rw [ih _ _ _ h h0]

/-! ## Characterisations of `aggregate` -/

theorem aggregate_ok_spec {s : pb.InternalState} {core : Core}
    (h : aggregate s = .ok core) :
    core.processorDatas = s.processors.map procDataOf ∧
    core.usedReturnTypes = addKeys [] (returnNames s) ∧
    core.metaEntries =
      (assocFold [] (metadataOccurrences s)).map (fun e => e.2) ∧
    core.winEntries =
      (assocFold [] (windowOccurrences s)).map (fun e => e.2) := by
  rw [show aggregate s =
      match processProcessors
          { usedReturnTypes := [], globalMetadataMap := [],
            globalWindowsMap := [] } s.processors with
      | .error e => .error e
      | .ok r =>
        .ok { processorDatas := r.2,
              usedReturnTypes := r.1.usedReturnTypes,
              metaEntries := r.1.globalMetadataMap.map (fun e => e.2),
              winEntries := r.1.globalWindowsMap.map (fun e => e.2) }
    from rfl] at h
  cases h1 : processProcessors
      { usedReturnTypes := [], globalMetadataMap := [],
        globalWindowsMap := [] } s.processors with
  | error e => rw [h1] at h; cases h
  | ok r =>
    rw [h1] at h
    cases h
    obtain ⟨hb1, hb2, hb3, hb4⟩ := processProcessors_ok s.processors _ _ _ h1
    exact ⟨hb1, hb2, by rw [hb3]; rfl, by rw [hb4]; rfl⟩

theorem aggregate_ok_exists {s : pb.InternalState}
    (h : ∀ p ∈ s.processors, ∀ a ∈ p.supportedAlgorithms,
      a.resultType ≠ .NOT_SPECIFIED) :
    ∃ core, aggregate s = .ok core := by
  obtain ⟨r, hr⟩ := processProcessors_ok_exists s.processors h
    { usedReturnTypes := [], globalMetadataMap := [], globalWindowsMap := [] }
  refine ⟨{ processorDatas := r.2, usedReturnTypes := r.1.usedReturnTypes,
            metaEntries := r.1.globalMetadataMap.map (fun e => e.2),
            winEntries := r.1.globalWindowsMap.map (fun e => e.2) }, ?_⟩
  rw [show aggregate s =
      match processProcessors
          { usedReturnTypes := [], globalMetadataMap := [],
            globalWindowsMap := [] } s.processors with
      | .error e => .error e
      | .ok r =>
        .ok { processorDatas := r.2,
              usedReturnTypes := r.1.usedReturnTypes,
              metaEntries := r.1.globalMetadataMap.map (fun e => e.2),
              winEntries := r.1.globalWindowsMap.map (fun e => e.2) }
    from rfl, hr]

theorem aggregate_error_of_bad {s : pb.InternalState}
    (h : ∃ p ∈ s.processors, ∃ a ∈ p.supportedAlgorithms,
      a.resultType = .NOT_SPECIFIED) :
    ∃ p a, p ∈ s.processors ∧ a ∈ p.supportedAlgorithms ∧
      a.resultType = .NOT_SPECIFIED ∧
      aggregate s = .error (errNotSpecified a p) := by
  have hex : (s.processors.find? (fun p => (p.supportedAlgorithms.find?
      (fun a => decide (a.resultType = .NOT_SPECIFIED))).isSome)).isSome := by
    rw [List.find?_isSome]
    obtain ⟨p, hp, a, ha, hns⟩ := h
    refine ⟨p, hp, ?_⟩
    show (p.supportedAlgorithms.find?
      (fun a => decide (a.resultType = pb.ResultType.NOT_SPECIFIED))).isSome = true
    rw [List.find?_isSome]
    exact ⟨a, ha, by simpa using hns⟩
  obtain ⟨p0, hp0⟩ := Option.isSome_iff_exists.mp hex
  have hp0p0 := List.find?_some hp0
  have hp0p : (p0.supportedAlgorithms.find?
      (fun a => decide (a.resultType = pb.ResultType.NOT_SPECIFIED))).isSome =
        true := hp0p0
  have hp0mem := List.mem_of_find?_eq_some hp0
  obtain ⟨a0, ha0⟩ := Option.isSome_iff_exists.mp hp0p
  refine ⟨p0, a0, hp0mem, List.mem_of_find?_eq_some ha0,
    by simpa using List.find?_some ha0, ?_⟩
  rw [show aggregate s =
      match processProcessors
          { usedReturnTypes := [], globalMetadataMap := [],
            globalWindowsMap := [] } s.processors with
      | .error e => .error e
      | .ok r =>
        .ok { processorDatas := r.2,
              usedReturnTypes := r.1.usedReturnTypes,
              metaEntries := r.1.globalMetadataMap.map (fun e => e.2),
              winEntries := r.1.globalWindowsMap.map (fun e => e.2) }
    from rfl,
    processProcessors_error_first s.processors _ p0 a0 hp0 ha0]

/-! ## The characters of `%x` output -/

theorem digitChar_mem_hexAlphabet {n : Nat} (h : n < 16) :
    Nat.digitChar n ∈ hexAlphabet := by
  interval_cases n <;> decide

theorem toDigitsCore_mem_hexAlphabet (fuel : Nat) :
    ∀ (n : Nat) (acc : List Char), (∀ c ∈ acc, c ∈ hexAlphabet) →
      ∀ c ∈ Nat.toDigitsCore 16 fuel n acc, c ∈ hexAlphabet := by
  induction fuel with
  | zero => intro n acc hacc c hc; exact hacc c hc
  | succ fuel ih =>
    intro n acc hacc c hc
    rw [Nat.toDigitsCore] at hc
    split at hc
    · rcases List.mem_cons.mp hc with h1 | h1
      · rw [h1]
        exact digitChar_mem_hexAlphabet (Nat.mod_lt _ (by norm_num))
      · exact hacc c h1
    · refine ih _ _ ?_ c hc
      intro d hd
      rcases List.mem_cons.mp hd with h1 | h1
      · rw [h1]
        exact digitChar_mem_hexAlphabet (Nat.mod_lt _ (by norm_num))
      · exact hacc d h1

theorem hexStr_mem_hexAlphabet (n : Nat) : ∀ c ∈ hexStr n, c ∈ hexAlphabet := by
  intro c hc
  rw [hexStr, Nat.toDigits] at hc
  exact toDigitsCore_mem_hexAlphabet (n + 1) n [] (by simp) c hc

/-! ## Extracting first-occurrence-wins facts from a folded map -/

theorem assoc_extract {α : Type} (occ : List (String × α)) (key : α → String)
    (hkey : ∀ e ∈ occ, key e.2 = e.1) (k : String) (e0 : String × α)
    (hfind : occ.find? (fun e => e.1 == k) = some e0) :
    ((assocFold [] occ).map (fun e => e.2)).countP (fun v => key v == k) = 1 ∧
    e0.2 ∈ (assocFold [] occ).map (fun e => e.2) ∧
    ∀ v ∈ (assocFold [] occ).map (fun e => e.2), key v = k → v = e0.2 := by
  have hlookup_occ : lookupA occ k = some e0.2 := by
    rw [lookupA, hfind]
    rfl
  have hlookup : lookupA (assocFold [] occ) k = some e0.2 := by
    rw [lookupA_assocFold occ [] k]
    simpa [lookupA_nil] using hlookup_occ
  have hmem : (k, e0.2) ∈ assocFold [] occ := lookupA_mem hlookup
  have hnodup : ((assocFold [] occ).map Prod.fst).Nodup :=
    keys_nodup_assocFold occ (by simp)
  have hkeyF : ∀ e ∈ assocFold [] occ, key e.2 = e.1 := by
    intro e he
    rcases mem_assocFold he with h1 | h1
    · cases h1
    · exact hkey e h1
  refine ⟨?_, List.mem_map.mpr ⟨(k, e0.2), hmem, rfl⟩, ?_⟩
  · rw [List.countP_map]
    have hcount := countP_key_of_nodup hnodup hmem
    rw [← hcount]
    exact List.countP_congr (fun e he => by simp [Function.comp, hkeyF e he])
  · intro v hv hkv
    obtain ⟨e, he, rfl⟩ := List.mem_map.mp hv
    have hek : e.1 = k := by rw [← hkeyF e he, hkv]
    have he2 : (k, e.2) ∈ assocFold [] occ := by
      rw [← hek]
      exact he
    exact assoc_value_unique hnodup he2 hmem

theorem winOcc_key (s : pb.InternalState) :
    ∀ e ∈ windowOccurrences s, e.2.VarName = e.1 := by
  intro e he
  simp only [windowOccurrences, List.mem_flatMap, List.mem_map] at he
  obtain ⟨p, _, a, _, rfl⟩ := he
  rfl

theorem metaOcc_key (s : pb.InternalState) :
    ∀ e ∈ metadataOccurrences s, e.2.KeyName = e.1 := by
  intro e he
  simp only [metadataOccurrences, List.mem_flatMap, algoMetaOcc,
    List.mem_map] at he
  obtain ⟨p, _, a, _, md, _, rfl⟩ := he
  rfl

theorem contains_addKeys_nil (l : List String) (t : String) :
    (addKeys [] l).contains t = l.contains t := by
  have hiff : t ∈ addKeys [] l ↔ t ∈ l := by
    rw [mem_addKeys]
    simp
  cases h2 : l.contains t
  · cases h1 : (addKeys [] l).contains t
    · rfl
    · exfalso
      have hm := List.elem_iff.mpr (hiff.mp (List.elem_iff.mp h1))
      have h2e : List.elem t l = false := h2
      rw [h2e] at hm
      cases hm
  · exact List.elem_iff.mpr (hiff.mpr (List.elem_iff.mp h2))

theorem mem_returnNames {s : pb.InternalState} {p : pb.Processor}
    {a : pb.Algorithm} (hp : p ∈ s.processors)
    (ha : a ∈ p.supportedAlgorithms) : returnNameTotal a ∈ returnNames s := by
  simp only [returnNames, List.mem_flatMap, List.mem_map]
  exact ⟨p, hp, a, ha, rfl⟩

end stub

/-! ## The sanitiser functions agree with their specification wording -/

theorem toSnakeLoop_false (l : List Char) :
    toSnakeLoop l false =
      l.flatMap (fun d => if isUpperGo d then ['_', goLower d] else [d]) := by
  induction l with
  | nil => rfl
  | cons c rest ih =>
    by_cases h : isUpperGo c <;> simp [toSnakeLoop, ih, h]

theorem toSnakeCase_eq_snakeSpec (s : List Char) :
    toSnakeCase s = snakeSpec s := by
  cases s with
  | nil => rfl
  | cons c rest =>
    by_cases h : isUpperGo c <;>
      simp [toSnakeCase, toSnakeLoop, snakeSpec, toSnakeLoop_false, h]

theorem isDigit_ne_dot {c : Char} (h : isDigitGo c) : c ≠ '.' := by
  intro hc
  rw [hc] at h
  exact absurd h (by decide)

theorem sanitiseLoop_false (l : List Char) :
    sanitiseLoop l false = l.map dotToUnderscore := by
  induction l with
  | nil => rfl
  | cons c rest ih =>
    by_cases h : c = '.' <;> simp [sanitiseLoop, ih, h, dotToUnderscore]

theorem sanitise_eq_spec (s : List Char) :
    sanitiseVariableName s = sanitiseSpec s := by
  cases s with
  | nil => rfl
  | cons c rest =>
    by_cases hd : isDigitGo c
    · have hne : dotToUnderscore c = c := by
        rw [dotToUnderscore, if_neg (isDigit_ne_dot hd)]
      simp [sanitiseVariableName, sanitiseLoop, sanitiseSpec, hd,
        sanitiseLoop_false, hne]
    · by_cases hdot : c = '.'
      · simp [sanitiseVariableName, sanitiseLoop, sanitiseSpec, hd, hdot,
          sanitiseLoop_false, dotToUnderscore,
          show isDigitGo '.' = false from by decide]
      · simp [sanitiseVariableName, sanitiseLoop, sanitiseSpec, hd, hdot,
          sanitiseLoop_false, dotToUnderscore]

namespace stub

/-! ## The claims -/

/-- C1: the claim says two runs of `mapInternalStateToTmpl` on the same raw
registry give identical GenerationModels, with `AllMetadata` and
`AllWindows` equal element-for-element in the same order.  The code builds
both slices by `for _, v := range m` over Go maps, whose iteration order is
unspecified, so two admissible runs of the very same input can present the
global metadata list in different orders: the canonical run and the
reversed-order run below are both runs of `sEx`, they agree on every
algorithm record (hence on every Identifier), yet their models differ. -/
theorem C1_model_not_deterministic :
    mapInternalStateToTmpl sEx (.ok (outCanonOf sEx)) ∧
    mapInternalStateToTmpl sEx (.ok (outSwapOf sEx)) ∧
    (outCanonOf sEx).Processors = (outSwapOf sEx).Processors ∧
    (outCanonOf sEx).AllMetadata ≠ (outSwapOf sEx).AllMetadata ∧
    outCanonOf sEx ≠ outSwapOf sEx := by
  refine ⟨?_, ?_, rfl, by decide, by decide⟩
  · exact Or.inr ⟨coreOf sEx, (coreOf sEx).metaEntries, (coreOf sEx).winEntries,
      by decide, List.Perm.refl _, List.Perm.refl _, rfl⟩
  · exact Or.inr ⟨coreOf sEx, (coreOf sEx).metaEntries.reverse,
      (coreOf sEx).winEntries, by decide, List.reverse_perm _,
      List.Perm.refl _, rfl⟩

/-- C2: an algorithm tagged `NOT_SPECIFIED` makes the whole aggregation
fail with an error naming the offending algorithm's name and version and
the owning processor; every run returns that error and no model, and the
generator materialises no files. -/
theorem C2_not_specified_fails (s : pb.InternalState)
    (h : ∃ p ∈ s.processors, ∃ a ∈ p.supportedAlgorithms,
      a.resultType = pb.ResultType.NOT_SPECIFIED) :
    ∃ p a, p ∈ s.processors ∧ a ∈ p.supportedAlgorithms ∧
      a.resultType = pb.ResultType.NOT_SPECIFIED ∧
      aggregate s = .error (errNotSpecified a p) ∧
      errNotSpecified a p =
        "result type not specified for algorithm " ++ a.name ++ "_" ++
          a.version ++ " on processor " ++ p.name ++ "_" ++ p.runtime ∧
      (∀ r, mapInternalStateToTmpl s r → r = .error (errNotSpecified a p)) ∧
      GeneratePythonStubs s =
        .error ("could not parse internal state: " ++ errNotSpecified a p) ∧
      generatedFiles s = [] := by
  obtain ⟨p, a, hp, ha, hns, herr⟩ := aggregate_error_of_bad h
  have hstub : GeneratePythonStubs s =
      .error ("could not parse internal state: " ++ errNotSpecified a p) := by
    simp only [GeneratePythonStubs, herr]
  refine ⟨p, a, hp, ha, hns, herr, rfl, ?_, hstub, ?_⟩
  · intro r hr
    rcases hr with ⟨e, he, hre⟩ | ⟨core, am, aw, hc, _⟩
    · have hee := herr.symm.trans he
      cases hee
      exact hre
    · rw [herr] at hc
      cases hc
  · simp only [generatedFiles, hstub]

/-- C2 witness: the registry `sBad` carries a `NOT_SPECIFIED` algorithm. -/
theorem C2_not_specified_fails_witness :
    (∃ p ∈ sBad.processors, ∃ a ∈ p.supportedAlgorithms,
      a.resultType = pb.ResultType.NOT_SPECIFIED) ∧
    (∃ p a, p ∈ sBad.processors ∧ a ∈ p.supportedAlgorithms ∧
      a.resultType = pb.ResultType.NOT_SPECIFIED ∧
      aggregate sBad = .error (errNotSpecified a p) ∧
      errNotSpecified a p =
        "result type not specified for algorithm " ++ a.name ++ "_" ++
          a.version ++ " on processor " ++ p.name ++ "_" ++ p.runtime ∧
      (∀ r, mapInternalStateToTmpl sBad r →
        r = .error (errNotSpecified a p)) ∧
      GeneratePythonStubs sBad =
        .error ("could not parse internal state: " ++ errNotSpecified a p) ∧
      generatedFiles sBad = []) :=
  ⟨by decide, C2_not_specified_fails sBad (by decide)⟩

/-- C3 counterexample: the Identifier (`VarName`) generated for the
algorithm named `"name.with.dots"` of `sEx` keeps the raw dotted name; it
is not `sanitiseVariableName` of the name followed by the hash. -/
theorem C3_varname_not_sanitised_counterexample :
    aggregate sEx = .ok (coreOf sEx) ∧
    algoDotted.Name = "name.with.dots" ∧
    algoDotted.Hash = "dce42915" ∧
    algoDotted.VarName = "name.with.dots_dce42915" ∧
    (sanitiseVariableName algoDotted.Name.data).asString ++ "_" ++
      algoDotted.Hash = "name_with_dots_dce42915" ∧
    algoDotted.VarName ≠
      (sanitiseVariableName algoDotted.Name.data).asString ++ "_" ++
        algoDotted.Hash := by decide

/-- C3 amended: every generated Algorithm record carries
`VarName = raw name ++ "_" ++ lower-case hex CRC-32`; the sanitised form is
not applied at this stage (the template layer, outside this package's Go
source, is where `SanitiseVariableName`/`ToSnakeCase` are injected). -/
theorem C3_varname_raw_name_hash (s : pb.InternalState) (core : Core)
    (h : aggregate s = .ok core) :
    ∀ pd ∈ core.processorDatas, ∀ A ∈ pd.Algorithms,
      ∃ p, p ∈ s.processors ∧ ∃ a, a ∈ p.supportedAlgorithms ∧
        A.Name = a.name ∧
        A.Hash = (hexStr (algoHash p a)).asString ∧
        A.VarName = a.name ++ "_" ++ (hexStr (algoHash p a)).asString := by
  obtain ⟨h1, _, _, _⟩ := aggregate_ok_spec h
  intro pd hpd A hA
  rw [h1] at hpd
  obtain ⟨p, hp, rfl⟩ := List.mem_map.mp hpd
  obtain ⟨a, ha, rfl⟩ := List.mem_map.mp hA
  exact ⟨p, hp, a, ha, rfl, rfl, rfl⟩

/-- C3 amended witness, at the dotted-name record of `sEx`. -/
theorem C3_varname_raw_name_hash_witness :
    aggregate sEx = .ok (coreOf sEx) ∧
    (coreOf sEx).processorDatas.headD default ∈ (coreOf sEx).processorDatas ∧
    algoDotted ∈ ((coreOf sEx).processorDatas.headD default).Algorithms ∧
    (∃ p, p ∈ sEx.processors ∧ ∃ a, a ∈ p.supportedAlgorithms ∧
      algoDotted.Name = a.name ∧
      algoDotted.Hash = (hexStr (algoHash p a)).asString ∧
      algoDotted.VarName = a.name ++ "_" ++ (hexStr (algoHash p a)).asString) :=
  ⟨by decide, by decide, by decide,
   C3_varname_raw_name_hash sEx (coreOf sEx) (by decide)
     ((coreOf sEx).processorDatas.headD default) (by decide)
     algoDotted (by decide)⟩

/-- C4: every generated hash is the CRC-32 (IEEE) of the delimiter-free
concatenation of the UTF-8 bytes of the six fields in their fixed order,
rendered as lower-case hexadecimal, and the Identifier is the name with
that hash as suffix; two algorithms with the same six-tuple receive the
same Identifier whatever their return kinds. -/
theorem C4_fingerprint_crc32 (s : pb.InternalState) (core : Core)
    (h : aggregate s = .ok core) :
    (∀ pd ∈ core.processorDatas, ∀ A ∈ pd.Algorithms,
      ∃ p, p ∈ s.processors ∧ ∃ a, a ∈ p.supportedAlgorithms ∧
        A.Hash = (hexStr (crc32 (utf8 p.name.data ++
          utf8 p.connectionStr.data ++ utf8 a.windowType.name.data ++
          utf8 a.windowType.version.data ++ utf8 a.name.data ++
          utf8 a.version.data))).asString ∧
        A.VarName = a.name ++ "_" ++ A.Hash ∧
        (∀ c ∈ A.Hash.data, c ∈ hexAlphabet)) ∧
    (∀ p1 a1 rt1 p2 a2 rt2, sixTuple p1 a1 = sixTuple p2 a2 →
      (algoRecord p1 a1 rt1).VarName = (algoRecord p2 a2 rt2).VarName ∧
      (algoRecord p1 a1 rt1).Hash = (algoRecord p2 a2 rt2).Hash) := by
  constructor
  · obtain ⟨h1, _, _, _⟩ := aggregate_ok_spec h
    intro pd hpd A hA
    rw [h1] at hpd
    obtain ⟨p, hp, rfl⟩ := List.mem_map.mp hpd
    obtain ⟨a, ha, rfl⟩ := List.mem_map.mp hA
    exact ⟨p, hp, a, ha, rfl, rfl, fun c hc => hexStr_mem_hexAlphabet _ c hc⟩
  · intro p1 a1 rt1 p2 a2 rt2 hst
    simp only [sixTuple, List.cons.injEq, and_true] at hst
    obtain ⟨e1, e2, e3, e4, e5, e6⟩ := hst
    constructor
    · show a1.name ++ "_" ++ (hexStr (algoHash p1 a1)).asString =
        a2.name ++ "_" ++ (hexStr (algoHash p2 a2)).asString
      rw [algoHash, algoHash, e1, e2, e3, e4, e5, e6]
    · show (hexStr (algoHash p1 a1)).asString =
        (hexStr (algoHash p2 a2)).asString
      rw [algoHash, algoHash, e1, e2, e3, e4, e5, e6]

/-- C4 witness, at the first record of `sEx`. -/
theorem C4_fingerprint_crc32_witness :
    aggregate sEx = .ok (coreOf sEx) ∧
    ((∀ pd ∈ (coreOf sEx).processorDatas, ∀ A ∈ pd.Algorithms,
      ∃ p, p ∈ sEx.processors ∧ ∃ a, a ∈ p.supportedAlgorithms ∧
        A.Hash = (hexStr (crc32 (utf8 p.name.data ++
          utf8 p.connectionStr.data ++ utf8 a.windowType.name.data ++
          utf8 a.windowType.version.data ++ utf8 a.name.data ++
          utf8 a.version.data))).asString ∧
        A.VarName = a.name ++ "_" ++ A.Hash ∧
        (∀ c ∈ A.Hash.data, c ∈ hexAlphabet)) ∧
    (∀ p1 a1 rt1 p2 a2 rt2, sixTuple p1 a1 = sixTuple p2 a2 →
      (algoRecord p1 a1 rt1).VarName = (algoRecord p2 a2 rt2).VarName ∧
      (algoRecord p1 a1 rt1).Hash = (algoRecord p2 a2 rt2).Hash)) :=
  ⟨by decide, C4_fingerprint_crc32 sEx (coreOf sEx) (by decide)⟩

/-- C5: the source's own comment says a line wraps when "adding the word +
a space exceeds the limit", and the claim says no output line exceeds the
limit, but the check `currentLineLength+len(word) > limit` omits the
joining space: at limit 4 the two 2-byte words "ab" and "cd" are packed
onto one 5-byte line instead of wrapping. -/
theorem C5_wrap_limit_off_by_one :
    goFields (goTrimSpace "ab cd".data) = ["ab".data, "cd".data] ∧
    byteLen "ab".data = 2 ∧ byteLen "cd".data = 2 ∧
    wrapText 4 "ab cd".data = "ab cd".data ∧
    byteLen "ab cd".data = 5 ∧
    '\n' ∉ wrapText 4 "ab cd".data := by decide

/-- C6: `toSnakeCase` inserts an underscore before every upper-case letter
(ASCII `A`–`Z`, as in the source) that is not the first character and
lowers every upper-case letter, splitting upper-case runs per letter. -/
theorem C6_toSnakeCase_per_letter :
    (∀ s : List Char, toSnakeCase s = snakeSpec s) ∧
    toSnakeCase "SpeedCheck".data = "speed_check".data ∧
    toSnakeCase "HTTPSConnection".data = "h_t_t_p_s_connection".data ∧
    toSnakeCase "already_snake".data = "already_snake".data :=
  ⟨toSnakeCase_eq_snakeSpec, by decide, by decide, by decide⟩

/-- C7: `sanitiseVariableName` prefixes an underscore exactly when the
first character is a decimal digit, replaces every `'.'` by `'_'`, and
passes every other character through unchanged. -/
theorem C7_sanitiseVariableName_spec :
    (∀ s : List Char, sanitiseVariableName s = sanitiseSpec s) ∧
    sanitiseVariableName "9startsWithNumber".data =
      "_9startsWithNumber".data ∧
    sanitiseVariableName "name.with.dots".data = "name_with_dots".data :=
  ⟨sanitise_eq_spec, by decide, by decide⟩

/-- C8: in every run's model each referenced window key owns exactly one
`Window` record: the one built at the key's first occurrence in traversal
order (carrying that occurrence's description and resolved field list);
later occurrences, even with differing descriptions, add nothing.  The
same first-occurrence-wins rule holds for the global metadata list keyed
by field name. -/
theorem C8_dedup_first_occurrence_wins (s : pb.InternalState)
    (out : AllProcessors) (h : mapInternalStateToTmpl s (.ok out)) :
    (∀ k e0, (windowOccurrences s).find? (fun e => e.1 == k) = some e0 →
      out.AllWindows.countP (fun w => w.VarName == k) = 1 ∧
      e0.2 ∈ out.AllWindows ∧
      ∀ w ∈ out.AllWindows, w.VarName = k → w = e0.2) ∧
    (∀ k e0, (metadataOccurrences s).find? (fun e => e.1 == k) = some e0 →
      out.AllMetadata.countP (fun m => m.KeyName == k) = 1 ∧
      e0.2 ∈ out.AllMetadata ∧
      ∀ m ∈ out.AllMetadata, m.KeyName = k → m = e0.2) := by
  rcases h with ⟨e, he, hre⟩ | ⟨core, am, aw, hagg, hpm, hpw, hre⟩
  · exact absurd hre (by simp)
  · obtain ⟨_, _, hmeta, hwin⟩ := aggregate_ok_spec hagg
    injection hre with hout
    subst hout
    constructor
    · intro k e0 hfind
      have hx := assoc_extract (windowOccurrences s) (fun w => w.VarName)
        (winOcc_key s) k e0 hfind
      rw [← hwin] at hx
      refine ⟨?_, ?_, ?_⟩
      · show aw.countP (fun w => w.VarName == k) = 1
        rw [List.Perm.countP_eq _ hpw]
        exact hx.1
      · show e0.2 ∈ aw
        exact hpw.mem_iff.mpr hx.2.1
      · intro w hw hkv
        exact hx.2.2 w (hpw.mem_iff.mp hw) hkv
    · intro k e0 hfind
      have hx := assoc_extract (metadataOccurrences s) (fun m => m.KeyName)
        (metaOcc_key s) k e0 hfind
      rw [← hmeta] at hx
      refine ⟨?_, ?_, ?_⟩
      · show am.countP (fun m => m.KeyName == k) = 1
        rw [List.Perm.countP_eq _ hpm]
        exact hx.1
      · show e0.2 ∈ am
        exact hpm.mem_iff.mpr hx.2.1
      · intro m hm hkv
        exact hx.2.2 m (hpm.mem_iff.mp hm) hkv

/-- C8 witness: in `sEx` the key `"win_1"` occurs three times (with three
different descriptions) and the field `"m1"` twice, yet the canonical run
holds exactly one record for each, the first-occurrence one. -/
theorem C8_dedup_first_occurrence_wins_witness :
    mapInternalStateToTmpl sEx (.ok (outCanonOf sEx)) ∧
    ((∀ k e0,
        (windowOccurrences sEx).find? (fun e => e.1 == k) = some e0 →
        (outCanonOf sEx).AllWindows.countP (fun w => w.VarName == k) = 1 ∧
        e0.2 ∈ (outCanonOf sEx).AllWindows ∧
        ∀ w ∈ (outCanonOf sEx).AllWindows, w.VarName = k → w = e0.2) ∧
      (∀ k e0,
        (metadataOccurrences sEx).find? (fun e => e.1 == k) = some e0 →
        (outCanonOf sEx).AllMetadata.countP (fun m => m.KeyName == k) = 1 ∧
        e0.2 ∈ (outCanonOf sEx).AllMetadata ∧
        ∀ m ∈ (outCanonOf sEx).AllMetadata, m.KeyName = k → m = e0.2)) :=
  ⟨Or.inr ⟨coreOf sEx, (coreOf sEx).metaEntries, (coreOf sEx).winEntries,
     by decide, List.Perm.refl _, List.Perm.refl _, rfl⟩,
   C8_dedup_first_occurrence_wins sEx (outCanonOf sEx)
     (Or.inr ⟨coreOf sEx, (coreOf sEx).metaEntries, (coreOf sEx).winEntries,
       by decide, List.Perm.refl _, List.Perm.refl _, rfl⟩)⟩

/-- C9: every run's import list is the fixed canonical order
`StructResult, ValueResult, NoneResult, ArrayResult` filtered to the
return-kind names actually contributed by some algorithm; nothing else
ever enters it. -/
theorem C9_import_list_canonical (s : pb.InternalState) (out : AllProcessors)
    (h : mapInternalStateToTmpl s (.ok out)) :
    out.ImportTypes =
      availableTypes.filter (fun t => (returnNames s).contains t) ∧
    (∀ t, t ∈ out.ImportTypes ↔
      t ∈ availableTypes ∧ ∃ p ∈ s.processors, ∃ a ∈ p.supportedAlgorithms,
        returnNameTotal a = t) := by
  rcases h with ⟨e, he, hre⟩ | ⟨core, am, aw, hagg, hpm, hpw, hre⟩
  · exact absurd hre (by simp)
  · obtain ⟨_, hused, _, _⟩ := aggregate_ok_spec hagg
    injection hre with hout
    subst hout
    have h1 : importListOf core.usedReturnTypes =
        availableTypes.filter (fun t => (returnNames s).contains t) := by
      rw [importListOf, hused]
      exact List.filter_congr (fun t _ => contains_addKeys_nil _ t)
    refine ⟨h1, ?_⟩
    intro t
    show t ∈ importListOf core.usedReturnTypes ↔ _
    rw [h1, List.mem_filter]
    constructor
    · rintro ⟨hav, hc⟩
      refine ⟨hav, ?_⟩
      have := List.elem_iff.mp hc
      simpa only [returnNames, List.mem_flatMap, List.mem_map] using this
    · rintro ⟨hav, p, hp, a, ha, rfl⟩
      exact ⟨hav, List.elem_iff.mpr (mem_returnNames hp ha)⟩

/-- C9 witness: `sEx` uses only the VALUE and ARRAY kinds, and its import
list comes out exactly `["ValueResult", "ArrayResult"]`. -/
theorem C9_import_list_canonical_witness :
    mapInternalStateToTmpl sEx (.ok (outCanonOf sEx)) ∧
    (outCanonOf sEx).ImportTypes = ["ValueResult", "ArrayResult"] ∧
    ((outCanonOf sEx).ImportTypes =
      availableTypes.filter (fun t => (returnNames sEx).contains t) ∧
    (∀ t, t ∈ (outCanonOf sEx).ImportTypes ↔
      t ∈ availableTypes ∧ ∃ p ∈ sEx.processors,
        ∃ a ∈ p.supportedAlgorithms, returnNameTotal a = t)) :=
  ⟨Or.inr ⟨coreOf sEx, (coreOf sEx).metaEntries, (coreOf sEx).winEntries,
     by decide, List.Perm.refl _, List.Perm.refl _, rfl⟩,
   by decide,
   C9_import_list_canonical sEx (outCanonOf sEx)
     (Or.inr ⟨coreOf sEx, (coreOf sEx).metaEntries, (coreOf sEx).winEntries,
       by decide, List.Perm.refl _, List.Perm.refl _, rfl⟩)⟩

/-- C10 counterexample: as stated the claim fails, because a registry that
contains an out-of-range tag may also contain the `NOT_SPECIFIED` sentinel
elsewhere, and then aggregation does fail: `sUBad` holds the tag 99 and a
sentinel, and the run errors and produces no files. -/
theorem C10_unrecognized_with_sentinel_fails :
    (∃ p ∈ sUBad.processors, ∃ a ∈ p.supportedAlgorithms,
      a.resultType ∉ [pb.ResultType.NOT_SPECIFIED, pb.ResultType.ARRAY,
        pb.ResultType.STRUCT, pb.ResultType.VALUE, pb.ResultType.NONE]) ∧
    aggregate sUBad = .error
      "result type not specified for algorithm V_1 on processor P_python" ∧
    GeneratePythonStubs sUBad = .error
      ("could not parse internal state: " ++
        "result type not specified for algorithm V_1 on processor P_python") ∧
    generatedFiles sUBad = [] := by decide

/-- C10 amended: provided no algorithm carries the `NOT_SPECIFIED`
sentinel, aggregation succeeds even when result-type tags fall outside the
five declared enum values: such an algorithm is included in the model with
an empty return type, the empty string enters the used-kinds set, and the
empty string never reaches the import list. -/
theorem C10_unrecognized_tag_tolerated (s : pb.InternalState)
    (hclean : ∀ p ∈ s.processors, ∀ a ∈ p.supportedAlgorithms,
      a.resultType ≠ pb.ResultType.NOT_SPECIFIED) :
    ∃ core, aggregate s = .ok core ∧
      (∀ p ∈ s.processors, ∀ a ∈ p.supportedAlgorithms,
        ∃ pd ∈ core.processorDatas, ∃ A ∈ pd.Algorithms,
          A = algoRecord p a (returnNameTotal a) ∧
          (a.resultType ∉ [pb.ResultType.NOT_SPECIFIED, pb.ResultType.ARRAY,
              pb.ResultType.STRUCT, pb.ResultType.VALUE,
              pb.ResultType.NONE] →
            A.ReturnType = "" ∧ "" ∈ core.usedReturnTypes)) ∧
      "" ∉ importListOf core.usedReturnTypes := by
  obtain ⟨core, hcore⟩ := aggregate_ok_exists hclean
  obtain ⟨h1, h2, _, _⟩ := aggregate_ok_spec hcore
  refine ⟨core, hcore, ?_, ?_⟩
  · intro p hp a ha
    refine ⟨procDataOf p, by rw [h1]; exact List.mem_map_of_mem _ hp,
      algoRecord p a (returnNameTotal a), List.mem_map_of_mem _ ha, rfl, ?_⟩
    intro hout
    have hrt : returnNameTotal a = "" := by
      cases hr : a.resultType
      · exact absurd hr (hclean p hp a ha)
      · exact absurd (by rw [hr]; simp) hout
      · exact absurd (by rw [hr]; simp) hout
      · exact absurd (by rw [hr]; simp) hout
      · exact absurd (by rw [hr]; simp) hout
      · rw [returnNameTotal, hr]
    constructor
    · show returnNameTotal a = ""
      exact hrt
    · rw [h2, mem_addKeys]
      exact Or.inr (hrt ▸ mem_returnNames hp ha)
  · intro hmem
    have h3 := (List.mem_filter.mp hmem).1
    simp [availableTypes] at h3

/-- C10 amended witness: `sU` carries the out-of-range tag 99 and no
sentinel. -/
theorem C10_unrecognized_tag_tolerated_witness :
    (∀ p ∈ sU.processors, ∀ a ∈ p.supportedAlgorithms,
      a.resultType ≠ pb.ResultType.NOT_SPECIFIED) ∧
    (∃ core, aggregate sU = .ok core ∧
      (∀ p ∈ sU.processors, ∀ a ∈ p.supportedAlgorithms,
        ∃ pd ∈ core.processorDatas, ∃ A ∈ pd.Algorithms,
          A = algoRecord p a (returnNameTotal a) ∧
          (a.resultType ∉ [pb.ResultType.NOT_SPECIFIED, pb.ResultType.ARRAY,
              pb.ResultType.STRUCT, pb.ResultType.VALUE,
              pb.ResultType.NONE] →
            A.ReturnType = "" ∧ "" ∈ core.usedReturnTypes)) ∧
      "" ∉ importListOf core.usedReturnTypes) :=
  ⟨by decide, C10_unrecognized_tag_tolerated sU (by decide)⟩

end stub

end orca